import Mathlib

/-!
Shallow embedding of `src/main.rs` of the fancy-docker container-listing CLI.

Strings are modelled by Lean `String` (a list of Unicode scalar values, matching
Rust `char`); Rust `String::len` (UTF-8 byte count) is modelled by `utf8_len`.
Rust `i64` values are `Int` with explicit two's-complement wrapping where
overflow matters (release-build semantics); `u16` port numbers are `Nat`.
External library behaviour (the chrono timestamp range check and the
chrono-humanize renderer) is parametrised or modelled from the spec, as noted
on each definition.
-/

namespace FancyDocker

/-- UTF-8 byte length of a string: Rust `String::len` / `str::len`. -/
def utf8_len (s : String) : Nat := (s.data.map Char.utf8Size).sum

/-- Rust `fn truncate_string(string: String, length: usize, apply: bool) -> String`
(main.rs:173-179): if `apply && string.len() > length`, collect the first
`length` chars (code points); otherwise return the string unchanged.
Note the guard uses the byte length while the cut counts code points. -/
def truncate_string (string : String) (length : Nat) (apply : Bool) : String :=
  if apply ∧ utf8_len string > length then String.mk (string.data.take length)
  else string

/-- Smallest `i64` value. -/
def i64min : Int := -(2 ^ 63)

/-- Largest `i64` value. -/
def i64max : Int := 2 ^ 63 - 1

/-- Rust `i64::abs` as compiled in optimized (release) builds: two's-complement
wrapping, so `i64::MIN.abs()` returns `i64::MIN` (debug builds would panic
there instead). Written with an explicit `% 2 ^ 64` at the one point where
overflow matters. -/
def i64_wrapping_abs (x : Int) : Int :=
  ((if x < 0 then -x else x) + 2 ^ 63) % 2 ^ 64 - 2 ^ 63

/-- The `let secs = ...` disambiguation inside `convert_date_thingi`
(main.rs:58-62): if `created_at.abs() > 1_000_000_000_000` divide by 1000
(Rust `/` on `i64` truncates toward zero, i.e. `Int.tdiv`), else use as-is. -/
def convert_secs (created_at : Int) : Int :=
  if i64_wrapping_abs created_at > 1000000000000 then created_at.tdiv 1000
  else created_at

/-- Modelled from the spec: the chrono-humanize rendering (external crate, not
under src/) produces "a human phrase describing elapsed time since a past
instant" (e.g. "3 minutes ago") relative to the current time; modelled as the
elapsed number of seconds followed by " seconds ago". -/
def human_time (now : Int) (secs : Int) : String :=
  toString (now - secs) ++ " seconds ago"

/-- Rust `fn convert_date_thingi(created_at: i64) -> String` (main.rs:57-68).
`inRange` abstracts chrono's `Utc.timestamp_opt(secs, 0)` returning
`LocalResult::Single` (true exactly on chrono's representable second range;
for a UTC offset the `Ambiguous` case never occurs), and `now` is the clock
instant that `chrono_humanize::HumanTime`'s `Display` implementation reads.
On the non-`Single` branch the code prints the raw `created_at`, not `secs`. -/
def convert_date_thingi (inRange : Int → Bool) (now : Int) (created_at : Int) :
    String :=
  let secs := convert_secs created_at
  if inRange secs then human_time now secs else toString created_at

/-- One element of the decoded `Ports` array (main.rs:44-55); every field is
optional. `u16` ports are embedded as `Nat`. -/
structure Ports where
  ip : Option String
  private_port : Option Nat
  public_port : Option Nat
  port_type : Option String
deriving DecidableEq

/-- One decoded container record `DockerOutput` (main.rs:24-42). -/
structure DockerOutput where
  id : String
  image : String
  names : List String
  command : String
  created_at : Int
  status : String
  ports : List Ports
deriving DecidableEq

/-- The display row `Docker` (main.rs:13-22). -/
structure Docker where
  id : String
  image : String
  name : String
  command : String
  created : String
  status : String
  ports : String
deriving DecidableEq

/-- The per-mapping `port_entry` expression (main.rs:111-141). In truncated
mode: if the defaulted private and public ports are equal, or a private port
exists but no public one, render `"<private>/<type>"`, else
`"<private>-><public>/<type>"`. In full mode always
`"<ip>:<private>-><public>/<type>"`. `unwrap_or_default()` is `Option.getD`
with `0` for numbers and `""` for strings. -/
def port_entry (truncate : Bool) (p : Ports) : String :=
  if truncate then
    if p.private_port.getD 0 = p.public_port.getD 0 then
      toString (p.private_port.getD 0) ++ "/" ++ p.port_type.getD ""
    else if p.private_port.isSome ∧ p.public_port.isNone then
      toString (p.private_port.getD 0) ++ "/" ++ p.port_type.getD ""
    else
      toString (p.private_port.getD 0) ++ "->" ++ toString (p.public_port.getD 0)
        ++ "/" ++ p.port_type.getD ""
  else
    p.ip.getD "" ++ ":" ++ toString (p.private_port.getD 0) ++ "->"
      ++ toString (p.public_port.getD 0) ++ "/" ++ p.port_type.getD ""

/-- The `ports` accumulation loop (main.rs:109-146): start from `""`, and for
each mapping push `", "` first when the accumulator is non-empty, then push
the entry. -/
def ports_string (truncate : Bool) (ps : List Ports) : String :=
  ps.foldl
    (fun ports p =>
      (if ports.isEmpty then ports else ports ++ ", ") ++ port_entry truncate p)
    ""

/-- Spec-side definition, from the claim's words "the entries joined in
original list order with `, `": the usual separator join. Used only to be
compared against `ports_string`. -/
def spec_join (sep : String) : List String → String
  | [] => ""
  | [a] => a
  | a :: b :: rest => a ++ sep ++ spec_join sep (b :: rest)

/-- The presentation of one `DockerOutput` as a `Docker` row, the body of the
`for d in &output` loop (main.rs:108-168). The `d.names[0]` index panics on an
empty name list, modelled as `none`; otherwise exactly one row is produced.
In truncated mode the image is first split on the first `@` (Rust
`split('@').next()`, i.e. `takeWhile (· != '@')`) before the 37-char cut. -/
def present_container (inRange : Int → Bool) (now : Int) (truncate : Bool)
    (d : DockerOutput) : Option Docker :=
  match d.names with
  | [] => none
  | name0 :: _ =>
    some
      { id := truncate_string d.id 12 truncate
        image := truncate_string
          (if truncate then String.mk (d.image.data.takeWhile (fun c => c != '@'))
           else d.image) 37 truncate
        name := truncate_string name0 20 truncate
        command := truncate_string d.command 30 truncate
        created := convert_date_thingi inRange now d.created_at
        status := d.status
        ports := ports_string truncate d.ports }

/-- Which kind of reqwest client `get_containers` builds (main.rs:75-92):
an HTTP1-only plain-TCP client, or one dialing a Unix domain socket path. -/
inductive ClientKind
  | tcpHttp1
  | unixSocket (path : String)
deriving DecidableEq

/-- The observable transport behaviour of the fetch half of `get_containers`
(main.rs:70-104): the chosen client and the ordered list of GET request URLs
issued. -/
structure FetchPlan where
  client : ClientKind
  requests : List String
deriving DecidableEq

/-- `dotenvy::var("DOCKER_URL").unwrap_or("http://localhost")` (main.rs:73);
`env` maps a variable name to its value when set. -/
def resolve_url (env : String → Option String) : String :=
  (env "DOCKER_URL").getD "http://localhost"

/-- `dotenvy::var("DOCKER_UNIX").unwrap_or("/var/run/docker.sock")`
(main.rs:74). -/
def resolve_unix (env : String → Option String) : String :=
  (env "DOCKER_UNIX").getD "/var/run/docker.sock"

/-- The transport decision of `get_containers` (main.rs:70-104): empty socket
path means an HTTP1-only TCP client, otherwise a Unix-socket client (the code
re-reads `DOCKER_UNIX` with the same default on that branch, main.rs:90); both
branches issue exactly one GET to the base URL followed by
`/containers/json`. -/
def fetch_plan (env : String → Option String) : FetchPlan :=
  let url := resolve_url env
  let unix := resolve_unix env
  if unix = "" then
    { client := ClientKind.tcpHttp1
      requests := [url ++ "/containers/json"] }
  else
    { client := ClientKind.unixSocket ((env "DOCKER_UNIX").getD "/var/run/docker.sock")
      requests := [url ++ "/containers/json"] }

/-- Spec-side definition, from the claim's words for the timestamp
disambiguation: divide by 1000 when the (mathematical) absolute value exceeds
1,000,000,000,000, else use as-is. Compared against `convert_secs`. -/
def spec_secs (t : Int) : Int :=
  if |t| > 1000000000000 then t.tdiv 1000 else t

/-! Helper lemmas. -/

theorem data_mk (l : List Char) : (String.mk l).data = l := rfl

theorem length_le_utf8_len (s : String) : s.data.length ≤ utf8_len s := by
  unfold utf8_len
  induction s.data with
  | nil => simp
  | cons c cs ih =>
    simp only [List.map_cons, List.sum_cons, List.length_cons]
    have := Char.utf8Size_pos c
    omega

/-- C2: the truncation helper with `apply = false` is the identity; with
`apply = true` the result is a prefix of the input of code-point length
`min (length S) L`: exactly the first `L` code points when the code-point
length exceeds `L`, and the unmodified string otherwise. -/
theorem truncate_string_spec (s : String) (L : Nat) :
    truncate_string s L false = s ∧
    (truncate_string s L true).data.length = min s.data.length L ∧
    (∃ t, s.data = (truncate_string s L true).data ++ t) ∧
    (s.data.length > L → (truncate_string s L true).data = s.data.take L) ∧
    (s.data.length ≤ L → truncate_string s L true = s) := by
  have hfalse : truncate_string s L false = s := by simp [truncate_string]
  by_cases h : utf8_len s > L
  · have hr : truncate_string s L true = String.mk (s.data.take L) := by
      simp [truncate_string, h]
    refine ⟨hfalse, ?_, ⟨s.data.drop L, ?_⟩, fun _ => ?_, fun hle => ?_⟩
    · rw [hr]
      simp [data_mk, List.length_take, Nat.min_comm]
    · rw [hr, data_mk]
      exact (List.take_append_drop L s.data).symm
    · rw [hr, data_mk]
    · rw [hr, List.take_of_length_le hle]
  · have hr : truncate_string s L true = s := by simp [truncate_string, h]
    have hlen : s.data.length ≤ L :=
      le_trans (length_le_utf8_len s) (Nat.le_of_not_lt h)
    refine ⟨hfalse, ?_, ⟨[], by simp [hr]⟩,
      fun hgt => absurd hgt (Nat.not_lt.mpr hlen), fun _ => hr⟩
    rw [hr]
    exact (Nat.min_eq_left hlen).symm

/-- Witness for `truncate_string_spec` at concrete inputs. -/
theorem truncate_string_spec_witness :
    (truncate_string "hello world" 5 true).data = ("hello world" : String).data.take 5 ∧
    truncate_string "hi" 5 true = "hi" :=
  ⟨(truncate_string_spec "hello world" 5).2.2.2.1 (by decide),
   (truncate_string_spec "hi" 5).2.2.2.2 (by decide)⟩

/-- C10: applying the truncation helper (with `apply = true`) twice at the same
limit gives the same result as applying it once. -/
theorem truncate_string_idempotent (s : String) (L : Nat) :
    truncate_string (truncate_string s L true) L true = truncate_string s L true := by
  by_cases h : utf8_len s > L
  · have hr : truncate_string s L true = String.mk (s.data.take L) := by
      simp [truncate_string, h]
    rw [hr]
    unfold truncate_string
    split
    · simp [data_mk, List.take_take]
    · rfl
  · have hr : truncate_string s L true = s := by simp [truncate_string, h]
    rw [hr]
    exact hr

theorem eq_empty_of_data_eq_nil {a : String} (h : a.data = []) : a = "" := by
  cases a with
  | mk d =>
    rw [show (String.mk d).data = d from rfl] at h
    rw [h]

theorem string_append_eq_empty {a b : String} (h : a ++ b = "") :
    a = "" ∧ b = "" := by
  have hd := congrArg String.data h
  rw [String.data_append] at hd
  rcases List.append_eq_nil.mp hd with ⟨ha, hb⟩
  exact ⟨eq_empty_of_data_eq_nil ha, eq_empty_of_data_eq_nil hb⟩

theorem append_slash_ne_empty (x y : String) : x ++ "/" ++ y ≠ "" := by
  intro h
  have h1 := (string_append_eq_empty (string_append_eq_empty h).1).2
  have h2 := congrArg String.data h1
  simp only [show ("/" : String).data = ['/'] from rfl] at h2
  cases h2

theorem port_entry_ne_empty (t : Bool) (p : Ports) : port_entry t p ≠ "" := by
  unfold port_entry
  split
  · split
    · exact append_slash_ne_empty _ _
    · split
      · exact append_slash_ne_empty _ _
      · exact append_slash_ne_empty _ _
  · exact append_slash_ne_empty _ _

theorem empty_append_string (s : String) : "" ++ s = s := by
  have hd : ("" ++ s).data = s.data := by
    rw [String.data_append]
    rfl
  cases s with
  | mk d => exact congrArg String.mk hd

theorem spec_join_snoc (sep x : String) :
    ∀ xs : List String, xs ≠ [] →
      spec_join sep (xs ++ [x]) = spec_join sep xs ++ sep ++ x := by
  intro xs
  induction xs with
  | nil => intro h; exact absurd rfl h
  | cons a rest ih =>
    intro _
    cases rest with
    | nil => rfl
    | cons b rest2 =>
      have step : spec_join sep ((a :: b :: rest2) ++ [x])
          = a ++ sep ++ spec_join sep ((b :: rest2) ++ [x]) := rfl
      rw [step, ih (by simp)]
      simp [spec_join, String.append_assoc]

theorem spec_join_head_ne_empty (sep y : String) (ys : List String) (hy : y ≠ "") :
    spec_join sep (y :: ys) ≠ "" := by
  cases ys with
  | nil => exact hy
  | cons z zs =>
    intro h
    exact hy (string_append_eq_empty (string_append_eq_empty h).1).1

theorem ports_string_eq_join (t : Bool) (ps : List Ports) :
    ports_string t ps = spec_join ", " (ps.map (port_entry t)) := by
  induction ps using List.reverseRecOn with
  | nil => rfl
  | append_singleton qs p ih =>
    unfold ports_string at *
    rw [List.foldl_append, List.foldl_cons, List.foldl_nil, ih]
    cases qs with
    | nil =>
      simp only [List.map_nil, List.map_append, List.map_cons]
      rw [show spec_join ", " ([] : List String) = "" from rfl]
      rw [show ("" : String).isEmpty = true from rfl]
      simp only [if_pos]
      rw [empty_append_string]
      rfl
    | cons q qs2 =>
      have hne : spec_join ", " ((q :: qs2).map (port_entry t)) ≠ "" := by
        simp only [List.map_cons]
        exact spec_join_head_ne_empty _ _ _ (port_entry_ne_empty t q)
      have hbool : (spec_join ", " ((q :: qs2).map (port_entry t))).isEmpty = false := by
        cases hb : (spec_join ", " ((q :: qs2).map (port_entry t))).isEmpty
        · rfl
        · exact absurd (((String.isEmpty_iff _)).mp hb) hne
      rw [hbool]
      simp only [Bool.false_eq_true, if_false]
      simp only [List.map_append, List.map_cons, List.map_nil]
      rw [spec_join_snoc ", " (port_entry t p)
        (port_entry t q :: List.map (port_entry t) qs2) (by simp)]

/-- C1: in truncated mode a mapping renders as `"<private>/<type>"` exactly
when the defaulted private and public ports are equal or a private port exists
without a public one, and as `"<private>-><public>/<type>"` otherwise, with
missing numbers defaulted to 0 and a missing type to `""`; the row's ports
string joins the entries in list order with `", "`; in particular
private=80/public=80 gives "80/tcp", private=80/public=none gives "80/tcp",
and private=80/public=8080 gives "80->8080/tcp". -/
theorem ports_truncated_spec :
    (∀ p : Ports,
      port_entry true p =
        if p.private_port.getD 0 = p.public_port.getD 0 ∨
            (p.private_port.isSome ∧ p.public_port.isNone) then
          toString (p.private_port.getD 0) ++ "/" ++ p.port_type.getD ""
        else
          toString (p.private_port.getD 0) ++ "->" ++ toString (p.public_port.getD 0)
            ++ "/" ++ p.port_type.getD "") ∧
    (∀ ps : List Ports,
      ports_string true ps = spec_join ", " (ps.map (port_entry true))) ∧
    port_entry true ⟨none, some 80, some 80, some "tcp"⟩ = "80/tcp" ∧
    port_entry true ⟨none, some 80, none, some "tcp"⟩ = "80/tcp" ∧
    port_entry true ⟨none, some 80, some 8080, some "tcp"⟩ = "80->8080/tcp" ∧
    ports_string true
        [⟨none, some 80, some 80, some "tcp"⟩, ⟨none, some 443, some 8443, some "udp"⟩]
      = "80/tcp, 443->8443/udp" := by
  refine ⟨?_, ports_string_eq_join true, by decide, by decide, by decide, by decide⟩
  intro p
  by_cases h1 : p.private_port.getD 0 = p.public_port.getD 0
  · simp [port_entry, h1]
  · by_cases h2 : p.private_port.isSome ∧ p.public_port.isNone
    · simp [port_entry, h1, h2]
    · simp [port_entry, h1, h2]

/-- C5: in full (non-truncated) mode every mapping renders as
`"<ip>:<private>-><public>/<type>"` with `""` for missing strings and 0 for
missing numbers, regardless of whether the private and public ports match;
in particular ip=0.0.0.0/private=80/public=8080/type=tcp gives
"0.0.0.0:80->8080/tcp" and a missing ip gives ":80->8080/tcp". -/
theorem ports_full_spec :
    (∀ p : Ports,
      port_entry false p =
        p.ip.getD "" ++ ":" ++ toString (p.private_port.getD 0) ++ "->"
          ++ toString (p.public_port.getD 0) ++ "/" ++ p.port_type.getD "") ∧
    port_entry false ⟨some "0.0.0.0", some 80, some 8080, some "tcp"⟩
      = "0.0.0.0:80->8080/tcp" ∧
    port_entry false ⟨none, some 80, some 8080, some "tcp"⟩ = ":80->8080/tcp" ∧
    port_entry false ⟨some "1.2.3.4", some 80, some 80, some "udp"⟩
      = "1.2.3.4:80->80/udp" ∧
    port_entry false ⟨none, none, none, none⟩ = ":0->0/" :=
  ⟨fun _ => rfl, by decide, by decide, by decide, by decide⟩

theorem dropWhile_ne_at (l : List Char) :
    l.dropWhile (fun c => c != '@') = [] ∨
      ∃ u, l.dropWhile (fun c => c != '@') = '@' :: u := by
  induction l with
  | nil => exact Or.inl rfl
  | cons c cs ih =>
    by_cases h : c = '@'
    · subst h
      exact Or.inr ⟨cs, by simp [List.dropWhile_cons]⟩
    · simpa [List.dropWhile_cons, h] using ih

/-- C4: with truncation enabled the presented image is the part of the raw
image before the first `@` (hence free of any digest suffix) cut to 37
characters; with truncation disabled the raw image string passes through
unchanged. The last three conjuncts verify that `takeWhile`/`dropWhile` on
`(· != '@')` is exactly "split on the first `@` and keep the part before it". -/
theorem image_presentation (inRange : Int → Bool) (now : Int)
    (i im n0 : String) (ns : List String) (cmd : String) (cr : Int)
    (st : String) (ps : List Ports) :
    (∃ r, present_container inRange now true ⟨i, im, n0 :: ns, cmd, cr, st, ps⟩ = some r ∧
        r.image = truncate_string
          (String.mk (im.data.takeWhile (fun c => c != '@'))) 37 true) ∧
    (∃ r, present_container inRange now false ⟨i, im, n0 :: ns, cmd, cr, st, ps⟩ = some r ∧
        r.image = im) ∧
    im.data.takeWhile (fun c => c != '@') ++ im.data.dropWhile (fun c => c != '@')
      = im.data ∧
    '@' ∉ im.data.takeWhile (fun c => c != '@') ∧
    (im.data.dropWhile (fun c => c != '@') = [] ∨
      ∃ u, im.data.dropWhile (fun c => c != '@') = '@' :: u) ∧
    String.mk (("repo/img@sha256:abcdef" : String).data.takeWhile (fun c => c != '@'))
      = "repo/img" := by
  refine ⟨⟨_, rfl, rfl⟩, ⟨_, rfl, ?_⟩, List.takeWhile_append_dropWhile _ _, ?_,
    dropWhile_ne_at im.data, by decide⟩
  · show truncate_string im 37 false = im
    simp [truncate_string]
  · intro hmem
    have := List.mem_takeWhile_imp hmem
    simp at this

/-- C8: with a non-empty name list the presenter produces exactly one row whose
name is the first list entry passed through the 20-character truncation helper
(a no-op when truncation is disabled); with an empty name list no row is
produced (the `d.names[0]` index is a fail-fast panic, modelled as `none`). -/
theorem name_presentation (inRange : Int → Bool) (now : Int) (t : Bool)
    (i im n0 : String) (ns : List String) (cmd : String) (cr : Int)
    (st : String) (ps : List Ports) :
    (∃ r, present_container inRange now t ⟨i, im, n0 :: ns, cmd, cr, st, ps⟩ = some r ∧
        r.name = truncate_string n0 20 t) ∧
    present_container inRange now t ⟨i, im, [], cmd, cr, st, ps⟩ = none :=
  ⟨⟨_, rfl, rfl⟩, rfl⟩

/-- Witness for `image_presentation` at a concrete digest-bearing image. -/
theorem image_presentation_witness :
    ∃ r, present_container (fun _ => true) 0 true
        ⟨"cid", "repo/img@sha256:abcdef", ["/app1"], "cmd", 0, "Up", []⟩ = some r ∧
      r.image = truncate_string
        (String.mk (("repo/img@sha256:abcdef" : String).data.takeWhile
          (fun c => c != '@'))) 37 true :=
  (image_presentation (fun _ => true) 0 "cid" "repo/img@sha256:abcdef" "/app1" []
    "cmd" 0 "Up" []).1

/-- Counterexample to C6: the created field of a presented row depends on the
clock instant read by the relative-time renderer, so two evaluations of the
mapping on the same (RawContainer, truncate) pair need not yield identical
rows. -/
theorem present_not_clock_free :
    (present_container (fun _ => true) 0 true
        ⟨"cid", "img", ["/app1"], "cmd", 0, "Up", []⟩).map Docker.created
      ≠ (present_container (fun _ => true) 60 true
        ⟨"cid", "img", ["/app1"], "cmd", 0, "Up", []⟩).map Docker.created := by
  decide

/-- C6 (amended): the presenter is a pure, deterministic function of
(RawContainer, truncate flag, current clock reading): evaluation at a fixed
clock reading is deterministic, every field other than created is independent
of the clock reading, and whether a row is produced at all is independent of
it; only the created field reads the current time, through the relative-time
rendering. -/
theorem present_pure_up_to_clock (inRange : Int → Bool) (t : Bool)
    (d : DockerOutput) (now1 now2 : Int) :
    present_container inRange now1 t d = present_container inRange now1 t d ∧
    (present_container inRange now1 t d).map Docker.id
      = (present_container inRange now2 t d).map Docker.id ∧
    (present_container inRange now1 t d).map Docker.image
      = (present_container inRange now2 t d).map Docker.image ∧
    (present_container inRange now1 t d).map Docker.name
      = (present_container inRange now2 t d).map Docker.name ∧
    (present_container inRange now1 t d).map Docker.command
      = (present_container inRange now2 t d).map Docker.command ∧
    (present_container inRange now1 t d).map Docker.status
      = (present_container inRange now2 t d).map Docker.status ∧
    (present_container inRange now1 t d).map Docker.ports
      = (present_container inRange now2 t d).map Docker.ports ∧
    (present_container inRange now1 t d).isSome
      = (present_container inRange now2 t d).isSome := by
  cases hn : d.names with
  | nil => simp [present_container, hn]
  | cons n0 rest => simp [present_container, hn]

/-- Counterexample to C3: the claim's disambiguation rule fails at the single
input `i64::MIN`: its mathematical absolute value exceeds 1,000,000,000,000,
yet the code (whose release-build `abs` wraps to a negative value there) does
not divide by 1000 and interprets the value as seconds directly. -/
theorem convert_secs_min_counterexample :
    |i64min| > 1000000000000 ∧
    convert_secs i64min ≠ i64min.tdiv 1000 ∧
    convert_secs i64min = i64min := by
  refine ⟨by decide, ?_, by decide⟩
  intro h
  have h2 : convert_secs i64min = i64min := by decide
  rw [h2] at h
  exact absurd h (by decide)

theorem i64min_eq : i64min = -9223372036854775808 := by norm_num [i64min]

theorem i64max_eq : i64max = 9223372036854775807 := by norm_num [i64max]

theorem wrapping_abs_eq_abs {t : Int} (h1 : i64min < t) (h2 : t ≤ i64max) :
    i64_wrapping_abs t = |t| := by
  have e63 : (2 : Int) ^ 63 = 9223372036854775808 := by norm_num
  have e64 : (2 : Int) ^ 64 = 18446744073709551616 := by norm_num
  rw [i64min_eq] at h1
  rw [i64max_eq] at h2
  unfold i64_wrapping_abs
  rw [e63, e64]
  rcases le_or_lt 0 t with hpos | hneg
  · rw [if_neg (not_lt.mpr hpos), abs_of_nonneg hpos]
    omega
  · rw [if_pos hneg, abs_of_neg hneg]
    omega

/-- C3 (amended): for every signed 64-bit timestamp other than `i64::MIN`, the
formatter divides by 1000 and takes the quotient as seconds exactly when the
absolute value exceeds 1,000,000,000,000, and takes the value as seconds
directly otherwise (at `i64::MIN` the release-build wrapped absolute value is
negative, so the value is taken as seconds directly); whenever the resulting
second count does not convert to a single unambiguous UTC instant, the
formatter returns the raw original integer rendered as a string. -/
theorem convert_date_disambiguation (t : Int)
    (h1 : i64min < t) (h2 : t ≤ i64max) :
    convert_secs t = spec_secs t ∧
    (∀ (inR : Int → Bool) (now : Int), inR (convert_secs t) = false →
      convert_date_thingi inR now t = toString t) := by
  constructor
  · unfold convert_secs spec_secs
    rw [wrapping_abs_eq_abs h1 h2]
  · intro inR now h
    simp [convert_date_thingi, h]

/-- Witness for `convert_date_disambiguation` at concrete inputs: a
millisecond-scale timestamp is divided by 1000, and with an out-of-range
conversion the raw integer is printed. -/
theorem convert_date_disambiguation_witness :
    convert_secs 1700000000123456 = spec_secs 1700000000123456 ∧
    convert_date_thingi (fun _ => false) 0 1700000000123456
      = toString (1700000000123456 : Int) ∧
    convert_secs 1700000000123456 = 1700000000123 :=
  ⟨(convert_date_disambiguation 1700000000123456 (by decide) (by decide)).1,
   (convert_date_disambiguation 1700000000123456 (by decide) (by decide)).2
     (fun _ => false) 0 rfl,
   by decide⟩

theorem tdiv_1000_in_range {t : Int} (h1 : i64min ≤ t) (h2 : t ≤ i64max) :
    i64min ≤ t.tdiv 1000 ∧ t.tdiv 1000 ≤ i64max := by
  rw [i64min_eq] at *
  rw [i64max_eq] at *
  cases t with
  | ofNat m =>
    have hd : Int.tdiv (Int.ofNat m) 1000 = Int.ofNat (m / 1000) := rfl
    have hnat : m / 1000 ≤ m := Nat.div_le_self _ _
    rw [hd]
    rw [show Int.ofNat m = (m : Int) from rfl] at h2
    rw [show Int.ofNat (m / 1000) = ((m / 1000 : Nat) : Int) from rfl]
    omega
  | negSucc m =>
    have hd : Int.tdiv (Int.negSucc m) 1000 = -Int.ofNat ((m + 1) / 1000) := rfl
    have hnat : (m + 1) / 1000 ≤ m + 1 := Nat.div_le_self _ _
    rw [Int.negSucc_eq] at h1
    rw [hd]
    rw [show Int.ofNat ((m + 1) / 1000) = (((m + 1) / 1000 : Nat) : Int) from rfl]
    omega

/-- C7: the time formatter is total on the whole signed 64-bit range: the
disambiguated second count never leaves the 64-bit range (so no arithmetic
step aborts under release-build wrapping semantics, including at `i64::MIN`),
and the result is always a string: either the human-relative rendering of the
second count or the raw integer rendered as a string. -/
theorem convert_date_total (inR : Int → Bool) (now t : Int)
    (h1 : i64min ≤ t) (h2 : t ≤ i64max) :
    (i64min ≤ convert_secs t ∧ convert_secs t ≤ i64max) ∧
    (convert_date_thingi inR now t = human_time now (convert_secs t) ∨
      convert_date_thingi inR now t = toString t) := by
  constructor
  · unfold convert_secs
    split
    · exact tdiv_1000_in_range h1 h2
    · exact ⟨h1, h2⟩
  · by_cases hin : inR (convert_secs t) = true
    · exact Or.inl (by simp [convert_date_thingi, hin, human_time])
    · exact Or.inr (by simp [convert_date_thingi, Bool.of_not_eq_true hin])

/-- Witness for `convert_date_total` at the minimum representable value. -/
theorem convert_date_total_witness :
    (i64min ≤ convert_secs i64min ∧ convert_secs i64min ≤ i64max) ∧
    (convert_date_thingi (fun _ => false) 0 i64min
        = human_time 0 (convert_secs i64min) ∨
      convert_date_thingi (fun _ => false) 0 i64min = toString i64min) :=
  convert_date_total (fun _ => false) 0 i64min (by decide) (by decide)

/-- C9: configuration resolution always succeeds — the base URL defaults to
`http://localhost` and the socket path to `/var/run/docker.sock` when the
respective environment variables are unset; an empty resolved socket path
selects the HTTP1-only TCP client and any other value a Unix-socket client
dialing that path; in both cases exactly one GET request is issued, to
`<base_url>/containers/json`. -/
theorem fetch_plan_spec (env : String → Option String) :
    (env "DOCKER_URL" = none → resolve_url env = "http://localhost") ∧
    (env "DOCKER_UNIX" = none → resolve_unix env = "/var/run/docker.sock") ∧
    (resolve_unix env = "" →
      (fetch_plan env).client = ClientKind.tcpHttp1) ∧
    (resolve_unix env ≠ "" →
      (fetch_plan env).client = ClientKind.unixSocket (resolve_unix env)) ∧
    (fetch_plan env).requests = [resolve_url env ++ "/containers/json"] := by
  refine ⟨fun h => by simp [resolve_url, h], fun h => by simp [resolve_unix, h],
    fun h => by simp [fetch_plan, h], fun h => ?_, ?_⟩
  · simp only [fetch_plan, resolve_unix] at *
    rw [if_neg h]
  · simp only [fetch_plan]
    split
    · rfl
    · rfl

/-- Witness for `fetch_plan_spec` on concrete environments: with nothing set
both defaults apply and the Unix-socket client dials the default path; with
`DOCKER_UNIX` set to the empty string the TCP client is chosen; one GET URL is
issued in each case. -/
theorem fetch_plan_spec_witness :
    resolve_url (fun _ => none) = "http://localhost" ∧
    resolve_unix (fun _ => none) = "/var/run/docker.sock" ∧
    (fetch_plan (fun _ => none)).client
      = ClientKind.unixSocket (resolve_unix (fun _ => none)) ∧
    (fetch_plan (fun v => if v = "DOCKER_UNIX" then some "" else none)).client
      = ClientKind.tcpHttp1 ∧
    (fetch_plan (fun _ => none)).requests
      = [resolve_url (fun _ => none) ++ "/containers/json"] :=
  ⟨(fetch_plan_spec (fun _ => none)).1 rfl,
   (fetch_plan_spec (fun _ => none)).2.1 rfl,
   (fetch_plan_spec (fun _ => none)).2.2.2.1 (by decide),
   (fetch_plan_spec (fun v => if v = "DOCKER_UNIX" then some "" else none)).2.2.1
     (by decide),
   (fetch_plan_spec (fun _ => none)).2.2.2.2⟩

end FancyDocker
